import Mathlib

/-!
Verification of the scenario-generator core of the `java-on-kubernetes`
repository (directory `loadgenerator/scenario_generator_scripts/scenariogen`).

Modelling conventions (shallow embedding of the Python source):
* Python floats are modelled as rationals `ℚ` (exact arithmetic stands in for
  IEEE 754; all claims are about the algorithmic structure, not rounding).
* NumPy's global pseudo-random stream is modelled by an abstract state type
  `σ` together with a record `RNG σ` of the primitives the code calls:
  `np.random.seed`, scalar/vector `np.random.normal` and `np.random.random`.
  A vector draw of `n` variates consumes the state `n` times in sequence.
* Failures (failed `assert`s, NumPy `ValueError`s, Python
  `UnboundLocalError`) are modelled with `Except String`.
* `np.ndarray` values are modelled as `List ℚ` / `List (List ℚ)`.
-/

namespace Scenariogen

/-- Abstract interface to the shared NumPy random stream:
`seed` models `np.random.seed`, `normal` a single draw from
`np.random.normal(mu, sigma)`, `random` a draw from `np.random.random()`. -/
structure RNG (σ : Type) where
  seed : ℤ → σ
  normal : ℚ → ℚ → σ → ℚ × σ
  random : σ → ℚ × σ

variable {σ : Type}

/-- `np.random.normal(mu, sigma, n)`: `n` consecutive variates drawn from the
stream. -/
def normalVec (R : RNG σ) (mu sig : ℚ) : ℕ → σ → List ℚ × σ
  | 0, s => ([], s)
  | n + 1, s =>
    let p := R.normal mu sig s
    let q := normalVec R mu sig n p.2
    (p.1 :: q.1, q.2)

/-- The `if seed is not None: np.random.seed(seed)` prologue shared by both
generators: a supplied seed replaces the current global stream state. -/
def seedState (R : RNG σ) (seed : Option ℤ) (s : σ) : σ :=
  match seed with
  | some k => R.seed k
  | none => s

/-- Truncation toward zero, as performed by NumPy's `.astype(int)` on a float
array. -/
def truncQ (q : ℚ) : ℤ :=
  if 0 ≤ q then ⌊q⌋ else ⌈q⌉

/-- `avg_values.shape[1]`: the column count of the (rectangular) averages
table. -/
def colsOf (avg_values : List (List ℚ)) : ℕ :=
  match avg_values.head? with
  | some r => r.length
  | none => 0

/-- The inner `for step in ...` loop of `generate_values`, over the list of
`(avg_values[row, step], durations_comp[step])` pairs: draw the jittered
per-day mean `this_avg`, select the noise regime by comparing the table
average `avg` against `load_threshold` (this is what the source does:
`sigma = sigma_high if avg > load_threshold else sigma_low`), draw
`duration` samples around `this_avg` and clamp each to `min_value`. -/
def genSteps (R : RNG σ) (sigma_week sigma_low sigma_high load_threshold min_value : ℚ) :
    List (ℚ × ℕ) → σ → List ℚ × σ
  | [], s => ([], s)
  | (avg, duration) :: rest, s =>
    let p := R.normal avg (sigma_week * avg) s
    let this_avg := p.1
    let sigma := if load_threshold < avg then sigma_high else sigma_low
    let q := normalVec R this_avg sigma duration p.2
    let vals := q.1.map (fun v => max min_value v)
    let t := genSteps R sigma_week sigma_low sigma_high load_threshold min_value rest q.2
    (vals ++ t.1, t.2)

/-- The outer `for day in range(num_days)` loop of `generate_values`: the
active row is `day % num_rows` (cyclic reuse of the table). -/
def genDays (R : RNG σ) (sigma_week sigma_low sigma_high load_threshold min_value : ℚ)
    (avg_values : List (List ℚ)) (durations_comp : List ℕ) :
    List ℕ → σ → List ℚ × σ
  | [], s => ([], s)
  | day :: rest, s =>
    let row := avg_values.getD (day % avg_values.length) []
    let p := genSteps R sigma_week sigma_low sigma_high load_threshold min_value
      (row.zip durations_comp) s
    let t := genDays R sigma_week sigma_low sigma_high load_threshold min_value
      avg_values durations_comp rest p.2
    (p.1 ++ t.1, t.2)

/-- The spike-injection pass shared by both generators:
`if values[i] > load_threshold and np.random.random() < spike_prob:
values[i] *= spike_mult`.  The Bernoulli draw happens only for eligible
samples (Python's short-circuit `and`). -/
def spikeLoop (R : RNG σ) (load_threshold spike_prob spike_mult : ℚ) :
    List ℚ → σ → List ℚ × σ
  | [], s => ([], s)
  | v :: vs, s =>
    if load_threshold < v then
      let p := R.random s
      let w := if p.1 < spike_prob then v * spike_mult else v
      let t := spikeLoop R load_threshold spike_prob spike_mult vs p.2
      (w :: t.1, t.2)
    else
      let t := spikeLoop R load_threshold spike_prob spike_mult vs s
      (v :: t.1, t.2)

/-- The Bernoulli outcomes of the spike pass, separated from the value
update: `true` at position `i` exactly when sample `i` is eligible
(`> load_threshold`) and its draw fell below `spike_prob`.  This function
never mentions `spike_mult`. -/
def spikeMask (R : RNG σ) (load_threshold spike_prob : ℚ) :
    List ℚ → σ → List Bool × σ
  | [], s => ([], s)
  | v :: vs, s =>
    if load_threshold < v then
      let p := R.random s
      let t := spikeMask R load_threshold spike_prob vs p.2
      ((if p.1 < spike_prob then true else false) :: t.1, t.2)
    else
      let t := spikeMask R load_threshold spike_prob vs s
      (false :: t.1, t.2)

/-- Error message modelling the failed `assert sum(durations) == 24`. -/
def errSumDurations : String := "AssertionError: sum(durations) == 24"

/-- Error message modelling the failed
`assert len(durations) == avg_values.shape[1]`. -/
def errLenDurations : String := "AssertionError: len(durations) == avg_values.shape[1]"

/-- `scenariogen.core.generate_values`: profile-compaction generation.
Time compaction: `compaction_factor = 24 / day_length_hours`,
`step_length = 60 / compaction_factor`,
`durations_comp[i] = int(durations[i] * step_length)` (truncation toward
zero; on configurations where an entry would be negative NumPy would raise,
which this model flattens to an empty draw via `Int.toNat`).  Then the
day/step loops, followed by the spike pass when `spike_prob > 0`. -/
def generate_values (R : RNG σ) (avg_values : List (List ℚ)) (durations : List ℤ)
    (day_length_hours : ℚ) (num_days : ℕ)
    (sigma_week sigma_low sigma_high load_threshold spike_prob spike_mult min_value : ℚ)
    (seed : Option ℤ) (s : σ) : Except String (List ℚ × σ) :=
  let s0 := seedState R seed s
  if durations.sum = 24 then
    if durations.length = colsOf avg_values then
      let compaction_factor := 24 / day_length_hours
      let step_length := 60 / compaction_factor
      let durations_comp := durations.map (fun (d : ℤ) => (truncQ ((d : ℚ) * step_length)).toNat)
      let p := genDays R sigma_week sigma_low sigma_high load_threshold min_value
        avg_values durations_comp (List.range num_days) s0
      if 0 < spike_prob then
        let q := spikeLoop R load_threshold spike_prob spike_mult p.1 p.2
        Except.ok (q.1.map (fun v => max min_value v), q.2)
      else
        Except.ok (p.1, p.2)
    else
      Except.error errLenDurations
  else
    Except.error errSumDurations

/-- `scenariogen.phases.Phase`.  The Python dataclass annotates `kind` with
`Literal["flat", "ramp"]`, but nothing enforces it at runtime, so the model
keeps `kind` as a string. -/
structure Phase where
  kind : String
  duration_min : ℕ
  target : ℚ
  start : Option ℚ
  sigma : ℚ
deriving DecidableEq, Repr

/-- `np.linspace(start, stop, num)` with the default inclusive endpoint. -/
def linspace (start stop : ℚ) : ℕ → List ℚ
  | 0 => []
  | 1 => [start]
  | n + 2 => (List.range (n + 2)).map (fun (i : ℕ) => start + (stop - start) * (i : ℚ) / ((n : ℚ) + 1))

/-- The samples one valid phase contributes:
`kind="flat"` draws `normal(target, sigma, duration_min)`;
`kind="ramp"` adds `normal(0, sigma, duration_min)` noise onto
`linspace(start, target, duration_min)`, with an unset `start`
defaulting to `0`. -/
def phaseVals (R : RNG σ) (p : Phase) (s : σ) : List ℚ × σ :=
  if p.kind = "flat" then
    normalVec R p.target p.sigma p.duration_min s
  else
    let start := p.start.getD 0
    let base := linspace start p.target p.duration_min
    let q := normalVec R 0 p.sigma p.duration_min s
    (List.zipWith (· + ·) base q.1, q.2)

/-- Error message modelling Python's `UnboundLocalError` raised when the
first phase has an unrecognized kind: the loop variable `vals` is read
before any branch assigned it. -/
def errUnboundVals : String := "UnboundLocalError: local variable vals referenced before assignment"

/-- Error message modelling NumPy's `ValueError` from `np.concatenate([])`. -/
def errEmptyConcat : String := "ValueError: need at least one array to concatenate"

/-- The `for phase in phases` loop of `build_phase_values`, accumulating the
`segments` list.  The second argument models the current binding of the
Python loop variable `vals`: a phase whose kind is neither `"flat"` nor
`"ramp"` falls through both branches, so `segments.append(vals)` re-appends
the previous phase's samples — or raises `UnboundLocalError` when no phase
has assigned `vals` yet. -/
def buildSegments (R : RNG σ) : List Phase → Option (List ℚ) → σ →
    Except String (List (List ℚ) × σ)
  | [], _, s => Except.ok ([], s)
  | p :: rest, lastVals, s =>
    if p.kind = "flat" ∨ p.kind = "ramp" then
      let q := phaseVals R p s
      match buildSegments R rest (some q.1) q.2 with
      | Except.ok t => Except.ok (q.1 :: t.1, t.2)
      | Except.error e => Except.error e
    else
      match lastVals with
      | some vals =>
        match buildSegments R rest (some vals) s with
        | Except.ok t => Except.ok (vals :: t.1, t.2)
        | Except.error e => Except.error e
      | none => Except.error errUnboundVals

/-- `scenariogen.phases.build_phase_values`: concatenate the per-phase
segments (`np.concatenate` raises on an empty segment list), clamp to
`min_value`, then run the spike pass when `spike_prob > 0`. -/
def build_phase_values (R : RNG σ) (phases : List Phase)
    (spike_prob spike_mult load_threshold min_value : ℚ)
    (seed : Option ℤ) (s : σ) : Except String (List ℚ × σ) :=
  let s0 := seedState R seed s
  match buildSegments R phases none s0 with
  | Except.error e => Except.error e
  | Except.ok t =>
    if t.1.isEmpty then Except.error errEmptyConcat
    else
      let values := t.1.flatten.map (fun v => max min_value v)
      if 0 < spike_prob then
        let q := spikeLoop R load_threshold spike_prob spike_mult values t.2
        Except.ok (q.1.map (fun v => max min_value v), q.2)
      else
        Except.ok (values, t.2)

/-- Parameters of a `"type": "core"` preset (keyword arguments of
`generate_values`; entries the preset dictionary omits carry the
`generate_values` defaults). -/
structure CoreCfg where
  avg_values : List (List ℚ)
  durations : List ℤ
  day_length_hours : ℚ
  num_days : ℕ
  sigma_week : ℚ
  sigma_low : ℚ
  sigma_high : ℚ
  load_threshold : ℚ
  spike_prob : ℚ
  spike_mult : ℚ
  min_value : ℚ

/-- Parameters of a `"type": "phases"` preset (keyword arguments of
`build_phase_values`, with defaults filled in likewise). -/
structure PhasesCfg where
  phases : List Phase
  spike_prob : ℚ
  spike_mult : ℚ
  load_threshold : ℚ
  min_value : ℚ

/-- One entry of the `PRESETS` registry: its `"type"` tag (as a
constructor), its `spawn_rate`, and the generation parameters. -/
inductive Preset where
  | core (spawn_rate : ℤ) (cfg : CoreCfg)
  | phases (spawn_rate : ℤ) (cfg : PhasesCfg)

/-- `PRESETS[name]` lookup (a Python dict keyed by unique names). -/
def lookupPreset (reg : List (String × Preset)) (name : String) : Option Preset :=
  (reg.find? (fun e => e.1 = name)).map Prod.snd

/-- `scenariogen.generate`: look the preset up (a missing name raises
`KeyError`), strip the facade-only fields, and dispatch by type tag to the
matching generator with the caller's seed. -/
def generate (R : RNG σ) (reg : List (String × Preset)) (name : String)
    (seed : Option ℤ) (s : σ) : Except String (List ℚ × σ) :=
  match lookupPreset reg name with
  | none => Except.error ("KeyError: " ++ name)
  | some (Preset.core _ c) =>
    generate_values R c.avg_values c.durations c.day_length_hours c.num_days
      c.sigma_week c.sigma_low c.sigma_high c.load_threshold
      c.spike_prob c.spike_mult c.min_value seed s
  | some (Preset.phases _ c) =>
    build_phase_values R c.phases c.spike_prob c.spike_mult
      c.load_threshold c.min_value seed s

/-- The mutable world visible to a `generate` call: the module-level
`PRESETS` registry and the global NumPy stream state. -/
structure GenWorld (σ : Type) where
  presets : List (String × Preset)
  rng : σ

/-- `generate` as a transition on the world: the code takes a shallow copy
of the registry entry (`dict(PRESETS[preset_name])`) and pops keys only on
that copy, so the registry component is passed through unchanged; only the
global random-stream state advances. -/
def generateW (R : RNG σ) (w : GenWorld σ) (name : String) (seed : Option ℤ) :
    Except String (List ℚ) × GenWorld σ :=
  match generate R w.presets name seed w.rng with
  | Except.error e => (Except.error e, { presets := w.presets, rng := w.rng })
  | Except.ok t => (Except.ok t.1, { presets := w.presets, rng := t.2 })

/-- `_WEEK_AVG_VALUES` from `presets.py` (Monday..Sunday rows). -/
def weekAvgValues : List (List ℚ) :=
  [[40, 650, 470, 800, 360, 40],
   [40, 610, 430, 750, 320, 40],
   [40, 680, 500, 820, 400, 40],
   [40, 650, 470, 850, 360, 40],
   [40, 610, 430, 720, 320, 40],
   [40, 570, 400, 680, 290, 40],
   [40, 540, 360, 650, 250, 40]]

/-- `_STANDARD_DURATIONS` from `presets.py`. -/
def standardDurations : List ℤ := [6, 4, 2, 6, 2, 4]

/-- The `PRESETS` registry from `presets.py`.  Keyword arguments a preset
dictionary omits are written out with the corresponding generator-signature
default (`sigma_week=0.15`, `sigma_low=3`, `sigma_high=80`,
`load_threshold=200`, `spike_prob=0.03`, `spike_mult=1.4`, `min_value=1`
for `generate_values`; `spike_prob=0`, `spike_mult=1`,
`load_threshold=200`, `min_value=1` for `build_phase_values`). -/
def PRESETS : List (String × Preset) :=
  [("2weeks", Preset.core 1
     { avg_values :=
        [[6, 400, 100, 380, 200, 6],
         [6, 450, 120, 400, 180, 6],
         [6, 380, 200, 430, 220, 6],
         [6, 500, 150, 480, 230, 6],
         [6, 450, 100, 300, 150, 6],
         [6, 50, 30, 70, 9, 6],
         [6, 10, 10, 30, 50, 6]],
       durations := standardDurations,
       day_length_hours := 3,
       num_days := 14,
       sigma_week := 1/10,
       sigma_low := 10,
       sigma_high := 10,
       load_threshold := 200,
       spike_prob := 0,
       spike_mult := 7/5,
       min_value := 1 }),
   ("7days", Preset.core 50
     { avg_values := weekAvgValues,
       durations := standardDurations,
       day_length_hours := 24/7,
       num_days := 7,
       sigma_week := 3/20,
       sigma_low := 3,
       sigma_high := 80,
       load_threshold := 200,
       spike_prob := 3/100,
       spike_mult := 7/5,
       min_value := 1 }),
   ("hpa_stress", Preset.core 50
     { avg_values := weekAvgValues,
       durations := standardDurations,
       day_length_hours := 24/7,
       num_days := 7,
       sigma_week := 3/20,
       sigma_low := 3,
       sigma_high := 80,
       load_threshold := 200,
       spike_prob := 3/100,
       spike_mult := 7/5,
       min_value := 1 }),
   ("thursday_3h", Preset.phases 50
     { phases :=
        [⟨"flat", 40, 40, none, 3⟩,
         ⟨"ramp", 5, 650, some 40, 80⟩,
         ⟨"flat", 27, 650, none, 80⟩,
         ⟨"flat", 13, 470, none, 80⟩,
         ⟨"ramp", 5, 850, some 470, 80⟩,
         ⟨"flat", 40, 850, none, 80⟩,
         ⟨"ramp", 5, 360, some 850, 80⟩,
         ⟨"flat", 13, 360, none, 80⟩,
         ⟨"ramp", 5, 40, some 360, 3⟩,
         ⟨"flat", 27, 40, none, 3⟩],
       spike_prob := 3/100,
       spike_mult := 7/5,
       load_threshold := 200,
       min_value := 1 }),
   ("1h_spike", Preset.phases 50
     { phases :=
        [⟨"flat", 15, 50, none, 3⟩,
         ⟨"ramp", 5, 850, some 50, 80⟩,
         ⟨"flat", 20, 850, none, 80⟩,
         ⟨"ramp", 5, 50, some 850, 80⟩,
         ⟨"flat", 15, 50, none, 3⟩],
       spike_prob := 3/100,
       spike_mult := 7/5,
       load_threshold := 200,
       min_value := 1 }),
   ("linear_ramp", Preset.phases 50
     { phases := [⟨"ramp", 60, 1500, some 10, 0⟩],
       spike_prob := 0,
       spike_mult := 1,
       load_threshold := 200,
       min_value := 1 })]

/-- The per-step noise regime as the spec's §4.1 prose describes it after
amendment: the std-dev is chosen by comparing the table average for the
(day, step) cell against `load_threshold`. -/
def noiseSigmaByTableAvg (sigma_low sigma_high load_threshold avg : ℚ) : ℚ :=
  if load_threshold < avg then sigma_high else sigma_low

/-- Spec-following variant of the inner step loop for claim C1 as written:
the noise std-dev is selected by comparing the jittered per-day mean
`this_avg` (not the table average) against `load_threshold`. -/
def genStepsThisAvg (R : RNG σ) (sigma_week sigma_low sigma_high load_threshold min_value : ℚ) :
    List (ℚ × ℕ) → σ → List ℚ × σ
  | [], s => ([], s)
  | (avg, duration) :: rest, s =>
    let p := R.normal avg (sigma_week * avg) s
    let this_avg := p.1
    let sigma := if load_threshold < this_avg then sigma_high else sigma_low
    let q := normalVec R this_avg sigma duration p.2
    let vals := q.1.map (fun v => max min_value v)
    let t := genStepsThisAvg R sigma_week sigma_low sigma_high load_threshold min_value rest q.2
    (vals ++ t.1, t.2)

/-- Spec-following variant of the step loop for the amended claim C1: the
std-dev comes from `noiseSigmaByTableAvg` applied to the table average. -/
def genStepsByTableAvg (R : RNG σ) (sigma_week sigma_low sigma_high load_threshold min_value : ℚ) :
    List (ℚ × ℕ) → σ → List ℚ × σ
  | [], s => ([], s)
  | (avg, duration) :: rest, s =>
    let p := R.normal avg (sigma_week * avg) s
    let this_avg := p.1
    let sigma := noiseSigmaByTableAvg sigma_low sigma_high load_threshold avg
    let q := normalVec R this_avg sigma duration p.2
    let vals := q.1.map (fun v => max min_value v)
    let t := genStepsByTableAvg R sigma_week sigma_low sigma_high load_threshold min_value rest q.2
    (vals ++ t.1, t.2)

/-- The day loop built over `genStepsThisAvg` (claim C1 as written). -/
def genDaysThisAvg (R : RNG σ) (sigma_week sigma_low sigma_high load_threshold min_value : ℚ)
    (avg_values : List (List ℚ)) (durations_comp : List ℕ) :
    List ℕ → σ → List ℚ × σ
  | [], s => ([], s)
  | day :: rest, s =>
    let row := avg_values.getD (day % avg_values.length) []
    let p := genStepsThisAvg R sigma_week sigma_low sigma_high load_threshold min_value
      (row.zip durations_comp) s
    let t := genDaysThisAvg R sigma_week sigma_low sigma_high load_threshold min_value
      avg_values durations_comp rest p.2
    (p.1 ++ t.1, t.2)

/-- The day loop built over `genStepsByTableAvg` (amended claim C1). -/
def genDaysByTableAvg (R : RNG σ) (sigma_week sigma_low sigma_high load_threshold min_value : ℚ)
    (avg_values : List (List ℚ)) (durations_comp : List ℕ) :
    List ℕ → σ → List ℚ × σ
  | [], s => ([], s)
  | day :: rest, s =>
    let row := avg_values.getD (day % avg_values.length) []
    let p := genStepsByTableAvg R sigma_week sigma_low sigma_high load_threshold min_value
      (row.zip durations_comp) s
    let t := genDaysByTableAvg R sigma_week sigma_low sigma_high load_threshold min_value
      avg_values durations_comp rest p.2
    (p.1 ++ t.1, t.2)

/-- `generate_values` as claim C1 states it: identical wrapper, but the
noise regime keys on the jittered mean `this_avg`. -/
def generate_values_thisAvgSigma (R : RNG σ) (avg_values : List (List ℚ)) (durations : List ℤ)
    (day_length_hours : ℚ) (num_days : ℕ)
    (sigma_week sigma_low sigma_high load_threshold spike_prob spike_mult min_value : ℚ)
    (seed : Option ℤ) (s : σ) : Except String (List ℚ × σ) :=
  let s0 := seedState R seed s
  if durations.sum = 24 then
    if durations.length = colsOf avg_values then
      let compaction_factor := 24 / day_length_hours
      let step_length := 60 / compaction_factor
      let durations_comp := durations.map (fun (d : ℤ) => (truncQ ((d : ℚ) * step_length)).toNat)
      let p := genDaysThisAvg R sigma_week sigma_low sigma_high load_threshold min_value
        avg_values durations_comp (List.range num_days) s0
      if 0 < spike_prob then
        let q := spikeLoop R load_threshold spike_prob spike_mult p.1 p.2
        Except.ok (q.1.map (fun v => max min_value v), q.2)
      else
        Except.ok (p.1, p.2)
    else
      Except.error errLenDurations
  else
    Except.error errSumDurations

/-- `generate_values` as the amended claim C1 states it: the noise regime
keys on the table average through `noiseSigmaByTableAvg`. -/
def generate_values_tableAvgSigma (R : RNG σ) (avg_values : List (List ℚ)) (durations : List ℤ)
    (day_length_hours : ℚ) (num_days : ℕ)
    (sigma_week sigma_low sigma_high load_threshold spike_prob spike_mult min_value : ℚ)
    (seed : Option ℤ) (s : σ) : Except String (List ℚ × σ) :=
  let s0 := seedState R seed s
  if durations.sum = 24 then
    if durations.length = colsOf avg_values then
      let compaction_factor := 24 / day_length_hours
      let step_length := 60 / compaction_factor
      let durations_comp := durations.map (fun (d : ℤ) => (truncQ ((d : ℚ) * step_length)).toNat)
      let p := genDaysByTableAvg R sigma_week sigma_low sigma_high load_threshold min_value
        avg_values durations_comp (List.range num_days) s0
      if 0 < spike_prob then
        let q := spikeLoop R load_threshold spike_prob spike_mult p.1 p.2
        Except.ok (q.1.map (fun v => max min_value v), q.2)
      else
        Except.ok (p.1, p.2)
    else
      Except.error errLenDurations
  else
    Except.error errSumDurations

/-- Python's `s.split("\n")` on the character list: empty input gives one
empty line, and a trailing newline produces a trailing empty line. -/
def splitNl : List Char → List (List Char)
  | [] => [[]]
  | c :: cs =>
    if c = '\n' then [] :: splitNl cs
    else
      match splitNl cs with
      | l :: ls => (c :: l) :: ls
      | [] => [[c]]

/-- Python's `s.split("\n")` for strings. -/
def pyLines (s : String) : List String :=
  (splitNl s.data).map String.mk

/-- Python's `"\n".join(lines)`. -/
def pyJoinNl : List String → String
  | [] => ""
  | [l] => l
  | l :: ls => l ++ "\n" ++ pyJoinNl ls

/-- Decimal digits of a natural number, most significant first (the digits
Python's `repr` of a nonnegative `int` prints). -/
def natDigits (n : ℕ) : List Char :=
  if n < 10 then [Nat.digitChar n]
  else natDigits (n / 10) ++ [Nat.digitChar (n % 10)]
decreasing_by exact Nat.div_lt_self (by omega) (by omega)

/-- Python's rendering of an `int` (as `json.dumps` emits it). -/
def renderInt (z : ℤ) : String :=
  if z < 0 then String.mk ('-' :: natDigits z.natAbs) else String.mk (natDigits z.natAbs)

/-- One record of the scenario JSON:
`{"n_users": ..., "spawn_rate": ..., "duration": 1}`. -/
structure ScenarioEntry where
  n_users : ℤ
  spawn_rate : ℤ
  duration : ℤ
deriving DecidableEq, Repr

/-- `scenariogen.output.to_scenario_json`: `int(v)` truncates toward
zero. -/
def to_scenario_json (values : List ℚ) (spawn_rate : ℤ) : List ScenarioEntry :=
  values.map (fun v => { n_users := truncQ v, spawn_rate := spawn_rate, duration := 1 })

/-- The lines `json.dumps(entry, indent=2)` contributes for one entry
nested inside the list (keys in insertion order); `comma` is true for every
entry except the last one. -/
def entryLines (comma : Bool) (e : ScenarioEntry) : List String :=
  ["  \x7b",
   "    \"n_users\": " ++ renderInt e.n_users ++ ",",
   "    \"spawn_rate\": " ++ renderInt e.spawn_rate ++ ",",
   "    \"duration\": " ++ renderInt e.duration,
   if comma then "  \x7d," else "  \x7d"]

/-- The entry blocks of the dumped list, joined with `",\n  "` separators
as `json.dumps(..., indent=2)` does. -/
def entriesLines : List ScenarioEntry → List String
  | [] => []
  | [e] => entryLines false e
  | e :: rest => entryLines true e ++ entriesLines rest

/-- The lines of `json.dumps(scenario_json, indent=2)`: `[]` on one line
for the empty list, otherwise the bracket lines around the entry blocks. -/
def dumpLines (entries : List ScenarioEntry) : List String :=
  match entries with
  | [] => ["[]"]
  | _ => "[" :: (entriesLines entries ++ ["]"])

/-- `json.dumps(scenario_json, indent=2)`. -/
def dumps (entries : List ScenarioEntry) : String :=
  pyJoinNl (dumpLines entries)

/-- `scenariogen.output.to_configmap_yaml`: the pretty-printed JSON, each
line prefixed with four spaces, embedded as a literal block scalar under
`data."scenario.json"`. -/
def to_configmap_yaml (scenario_json : List ScenarioEntry) (name nspace : String) : String :=
  let json_str := dumps scenario_json
  let indented := pyJoinNl ((pyLines json_str).map (fun line => "    " ++ line))
  "apiVersion: v1" ++ "\n" ++
  ("kind: ConfigMap" ++ "\n" ++
  ("metadata:" ++ "\n" ++
  (("  name: " ++ name) ++ "\n" ++
  (("  namespace: " ++ nspace) ++ "\n" ++
  ("data:" ++ "\n" ++
  ("  scenario.json: |" ++ "\n" ++
  (indented ++ "\n")))))))

/-- Drop the lines after the end of the literal block: a block line is
either blank or carries the block's detected indentation (four spaces: the
key sits at indent two and the produced document indents the block body by
four). -/
def isBlockLine (l : String) : Bool :=
  l == "" || l.data.take 4 == [' ', ' ', ' ', ' ']

/-- Trailing blank lines of a literal block, removed by the default clip
chomping. -/
def dropTrailingBlank (ls : List String) : List String :=
  (ls.reverse.dropWhile (fun l => l == "")).reverse

/-- Remove the four-space block indentation from one content line. -/
def stripIndent4 (l : String) : String :=
  String.mk (l.data.drop 4)

/-- Skip to the lines following the `scenario.json` block-scalar header
line. -/
def findScenarioBlock : List String → Option (List String)
  | [] => none
  | l :: ls => if l = "  scenario.json: |" then some ls else findScenarioBlock ls

/-- Model of a YAML 1.2 parser reading the produced ConfigMap document and
returning `data."scenario.json"`: the value of a literal block scalar `|`
is its content lines with the block indentation stripped, joined by line
breaks, with clip chomping (the final line break is kept, trailing blank
lines are dropped). -/
def yamlExtractScenario (doc : String) : Option String :=
  match findScenarioBlock (pyLines doc) with
  | none => none
  | some ls =>
    let block := ls.takeWhile isBlockLine
    let content := (dropTrailingBlank block).map stripIndent4
    match content with
    | [] => some ""
    | _ => some (pyJoinNl content ++ "\n")

/-- A concrete instantiation of the random-stream interface, used to
evaluate the model on explicit inputs: the state is a draw counter and
every normal draw returns `mu + sigma`. -/
def demoRNG : RNG ℕ :=
  { seed := fun k => k.toNat,
    normal := fun mu sig s => (mu + sig, s + 1),
    random := fun s => (0, s + 1) }

/-! ## Helper lemmas about the generation engine -/

theorem normalVec_length (R : RNG σ) (mu sig : ℚ) :
    ∀ (n : ℕ) (s : σ), (normalVec R mu sig n s).1.length = n := by
  intro n
  induction n with
  | zero => intro s; rfl
  | succ n ih => intro s; simp [normalVec, ih]

theorem genSteps_length (R : RNG σ) (sw sl sh lt mv : ℚ) :
    ∀ (pairs : List (ℚ × ℕ)) (s : σ),
      (genSteps R sw sl sh lt mv pairs s).1.length = (pairs.map Prod.snd).sum := by
  intro pairs
  induction pairs with
  | nil => intro s; rfl
  | cons p rest ih =>
    intro s
    obtain ⟨avg, duration⟩ := p
    simp [genSteps, ih, normalVec_length]

theorem genSteps_min (R : RNG σ) (sw sl sh lt mv : ℚ) :
    ∀ (pairs : List (ℚ × ℕ)) (s : σ) (v : ℚ),
      v ∈ (genSteps R sw sl sh lt mv pairs s).1 → mv ≤ v := by
  intro pairs
  induction pairs with
  | nil => intro s v hv; simp [genSteps] at hv
  | cons p rest ih =>
    intro s v hv
    obtain ⟨avg, duration⟩ := p
    simp only [genSteps, List.mem_append, List.mem_map] at hv
    rcases hv with ⟨w, _, rfl⟩ | hv
    · exact le_max_left _ _
    · exact ih _ _ hv

theorem genDays_length (R : RNG σ) (sw sl sh lt mv : ℚ) (avg_values : List (List ℚ))
    (dcomp : List ℕ) (hrow : ∀ row ∈ avg_values, dcomp.length ≤ row.length)
    (hne : avg_values ≠ []) :
    ∀ (days : List ℕ) (s : σ),
      (genDays R sw sl sh lt mv avg_values dcomp days s).1.length
        = days.length * dcomp.sum := by
  intro days
  induction days with
  | nil => intro s; simp [genDays]
  | cons day rest ih =>
    intro s
    have hlenpos : 0 < avg_values.length := List.length_pos.mpr hne
    have hmem : avg_values.getD (day % avg_values.length) [] ∈ avg_values := by
      rw [List.getD_eq_getElem avg_values [] (Nat.mod_lt day hlenpos)]
      exact List.getElem_mem _
    have hzip : ((avg_values.getD (day % avg_values.length) []).zip dcomp).map Prod.snd
        = dcomp := List.map_snd_zip _ _ (hrow _ hmem)
    simp only [genDays, List.length_append, genSteps_length, hzip, ih, List.length_cons,
      Nat.succ_mul]
    exact Nat.add_comm _ _

theorem genDays_min (R : RNG σ) (sw sl sh lt mv : ℚ) (avg_values : List (List ℚ))
    (dcomp : List ℕ) :
    ∀ (days : List ℕ) (s : σ) (v : ℚ),
      v ∈ (genDays R sw sl sh lt mv avg_values dcomp days s).1 → mv ≤ v := by
  intro days
  induction days with
  | nil => intro s v hv; simp [genDays] at hv
  | cons day rest ih =>
    intro s v hv
    simp only [genDays, List.mem_append] at hv
    rcases hv with hv | hv
    · exact genSteps_min R sw sl sh lt mv _ _ _ hv
    · exact ih _ _ hv

theorem spikeLoop_eq_mask (R : RNG σ) (lt sp sm : ℚ) :
    ∀ (vs : List ℚ) (s : σ),
      spikeLoop R lt sp sm vs s
        = (List.zipWith (fun v b => if b then v * sm else v) vs (spikeMask R lt sp vs s).1,
           (spikeMask R lt sp vs s).2) := by
  intro vs
  induction vs with
  | nil => intro s; rfl
  | cons v rest ih =>
    intro s
    by_cases hv : lt < v
    · by_cases hr : (R.random s).1 < sp
      · simp [spikeLoop, spikeMask, hv, hr, ih]
      · simp [spikeLoop, spikeMask, hv, hr, ih]
    · simp [spikeLoop, spikeMask, hv, ih]

theorem spikeMask_length (R : RNG σ) (lt sp : ℚ) :
    ∀ (vs : List ℚ) (s : σ), (spikeMask R lt sp vs s).1.length = vs.length := by
  intro vs
  induction vs with
  | nil => intro s; rfl
  | cons v rest ih =>
    intro s
    by_cases hv : lt < v
    · simp [spikeMask, hv, ih]
    · simp [spikeMask, hv, ih]

theorem spikeMask_forall_gt (R : RNG σ) (lt sp : ℚ) :
    ∀ (vs : List ℚ) (s : σ),
      List.Forall₂ (fun v b => b = true → lt < v) vs (spikeMask R lt sp vs s).1 := by
  intro vs
  induction vs with
  | nil => intro s; exact List.Forall₂.nil
  | cons v rest ih =>
    intro s
    by_cases hv : lt < v
    · simp only [spikeMask, hv, if_true]
      exact List.Forall₂.cons (fun _ => hv) (ih _)
    · simp only [spikeMask, hv, if_false]
      exact List.Forall₂.cons (fun h => absurd h (by simp)) (ih _)

theorem spikeLoop_length (R : RNG σ) (lt sp sm : ℚ) (vs : List ℚ) (s : σ) :
    (spikeLoop R lt sp sm vs s).1.length = vs.length := by
  rw [spikeLoop_eq_mask]
  simp [spikeMask_length]

/-! ## Claim theorems: facade determinism, registry frame, validation -/

theorem generate_values_seed_irrelevant (R : RNG σ) (avg_values : List (List ℚ))
    (durations : List ℤ) (dlh : ℚ) (nd : ℕ) (sw sl sh lt sp sm mv : ℚ) (K : ℤ)
    (s1 s2 : σ) :
    generate_values R avg_values durations dlh nd sw sl sh lt sp sm mv (some K) s1
      = generate_values R avg_values durations dlh nd sw sl sh lt sp sm mv (some K) s2 := rfl

theorem build_phase_values_seed_irrelevant (R : RNG σ) (phases : List Phase)
    (sp sm lt mv : ℚ) (K : ℤ) (s1 s2 : σ) :
    build_phase_values R phases sp sm lt mv (some K) s1
      = build_phase_values R phases sp sm lt mv (some K) s2 := rfl

/-- C3: for every preset name and fixed seed `K`, `generate(name, seed=K)`
returns the same series (and leaves the stream in the same state) no
matter what state the shared stream was in beforehand — so two successive
seeded calls are bit-identical, the single `np.random.seed(K)` prologue
covering both base sampling and spike injection. -/
theorem generate_deterministic_for_fixed_seed (R : RNG σ)
    (reg : List (String × Preset)) (name : String) (K : ℤ) (s1 s2 : σ) :
    generate R reg name (some K) s1 = generate R reg name (some K) s2 := by
  unfold generate
  cases lookupPreset reg name with
  | none => rfl
  | some p =>
    cases p with
    | core sr c => exact generate_values_seed_irrelevant ..
    | phases sr c => exact build_phase_values_seed_irrelevant ..

/-- C9: a `generate` call does not change the preset registry: the code
copies the registry entry (`dict(PRESETS[preset_name])`) and pops keys only
on the copy, so in the world-transition model the registry component of the
world after the call is exactly the one before it; only the stream state
moves. -/
theorem generate_preserves_registry (R : RNG σ) (w : GenWorld σ) (name : String)
    (seed : Option ℤ) :
    ((generateW R w name seed).2).presets = w.presets := by
  unfold generateW
  cases generate R w.presets name seed w.rng with
  | error e => rfl
  | ok t => rfl

/-- C7: a durations list whose sum is not 24, or whose length differs from
the table's column count, makes `generate_values` fail with a configuration
error (a failed `assert`) — the result is an `Except.error`, so no partial
series exists. -/
theorem generate_values_rejects_bad_durations (R : RNG σ)
    (avg_values : List (List ℚ)) (durations : List ℤ) (dlh : ℚ) (nd : ℕ)
    (sw sl sh lt sp sm mv : ℚ) (seed : Option ℤ) (s : σ)
    (hbad : durations.sum ≠ 24 ∨ durations.length ≠ colsOf avg_values) :
    generate_values R avg_values durations dlh nd sw sl sh lt sp sm mv seed s
      = Except.error errSumDurations
    ∨ generate_values R avg_values durations dlh nd sw sl sh lt sp sm mv seed s
      = Except.error errLenDurations := by
  by_cases hsum : durations.sum = 24
  · right
    rcases hbad with hbad | hlen
    · exact absurd hsum hbad
    · simp [generate_values, hsum, hlen]
  · left
    simp [generate_values, hsum]

/-- Witness for C7: the durations list `[23]` (sum 23) is rejected. -/
theorem generate_values_rejects_bad_durations_witness :
    (([23] : List ℤ).sum ≠ 24 ∨ ([23] : List ℤ).length ≠ colsOf [[100]])
    ∧ (generate_values demoRNG [[100]] [23] 1 1 1 1 1 1 0 1 1 none 0
        = Except.error errSumDurations
      ∨ generate_values demoRNG [[100]] [23] 1 1 1 1 1 1 0 1 1 none 0
        = Except.error errLenDurations) :=
  ⟨by with_unfolding_all decide,
   generate_values_rejects_bad_durations demoRNG [[100]] [23] 1 1 1 1 1 1 0 1 1 none 0
     (by with_unfolding_all decide)⟩

/-! ## Claim C1: which average selects the noise regime -/

theorem genSteps_eq_byTableAvg (R : RNG σ) (sw sl sh lt mv : ℚ) :
    ∀ (pairs : List (ℚ × ℕ)) (s : σ),
      genSteps R sw sl sh lt mv pairs s = genStepsByTableAvg R sw sl sh lt mv pairs s := by
  intro pairs
  induction pairs with
  | nil => intro s; rfl
  | cons p rest ih =>
    intro s
    obtain ⟨avg, duration⟩ := p
    simp [genSteps, genStepsByTableAvg, noiseSigmaByTableAvg, ih]

theorem genDays_eq_byTableAvg (R : RNG σ) (sw sl sh lt mv : ℚ)
    (avg_values : List (List ℚ)) (dcomp : List ℕ) :
    ∀ (days : List ℕ) (s : σ),
      genDays R sw sl sh lt mv avg_values dcomp days s
        = genDaysByTableAvg R sw sl sh lt mv avg_values dcomp days s := by
  intro days
  induction days with
  | nil => intro s; rfl
  | cons day rest ih =>
    intro s
    simp [genDays, genDaysByTableAvg, genSteps_eq_byTableAvg, ih]

/-- C1 (counterexample): with table average 100, `load_threshold = 200` and
a jittered mean of 300, selecting the regime by `this_avg` (as the claim
states) yields a different series than the code, which selects it by the
table average `avg`: the code draws with `sigma_low = 3` and produces 303
where the claim's reading draws with `sigma_high = 80` and produces 380. -/
theorem sigma_regime_thisAvg_counterexample :
    generate_values demoRNG [[100]] [24] (1/60) 1 2 3 80 200 0 1 1 none 0
      = Except.ok ([303], 2)
    ∧ generate_values_thisAvgSigma demoRNG [[100]] [24] (1/60) 1 2 3 80 200 0 1 1 none 0
      = Except.ok ([380], 2)
    ∧ ((303 : ℚ) ≠ 380) :=
  ⟨by with_unfolding_all rfl, by with_unfolding_all rfl, by with_unfolding_all decide⟩

/-- C1 (amended): for every day and step the per-sample noise std-dev is
selected by comparing the per-cell table average `avg` (not the jittered
`this_avg`) against `load_threshold`: `generate_values` coincides with the
variant whose regime choice is spelled out as
`noiseSigmaByTableAvg` applied to the table average. -/
theorem generate_values_sigma_by_table_avg (R : RNG σ) (avg_values : List (List ℚ))
    (durations : List ℤ) (dlh : ℚ) (nd : ℕ) (sw sl sh lt sp sm mv : ℚ)
    (seed : Option ℤ) (s : σ) :
    generate_values R avg_values durations dlh nd sw sl sh lt sp sm mv seed s
      = generate_values_tableAvgSigma R avg_values durations dlh nd sw sl sh lt sp sm mv seed s := by
  simp only [generate_values, generate_values_tableAvgSigma, genDays_eq_byTableAvg]

/-! ## Claim C4: series length under time compaction -/

/-- C4: for a valid configuration (durations of nonnegative hours summing
to 24, matching the table's column count, rectangular table, positive
compaction target), `generate_values` succeeds and the series has exactly
`num_days * Σ_i ⌊durations[i] * step_length⌋` samples with
`step_length = 60 / (24 / day_length_hours)`: fractional minutes are
truncated per step, never redistributed. -/
theorem generate_values_length_spec (R : RNG σ) (avg_values : List (List ℚ))
    (durations : List ℤ) (dlh : ℚ) (nd : ℕ) (sw sl sh lt sp sm mv : ℚ)
    (seed : Option ℤ) (s : σ)
    (hsum : durations.sum = 24) (hlen : durations.length = colsOf avg_values)
    (hrect : ∀ row ∈ avg_values, row.length = colsOf avg_values)
    (hpos : ∀ d ∈ durations, 0 ≤ d) (hdlh : 0 < dlh) :
    ∃ vs s1,
      generate_values R avg_values durations dlh nd sw sl sh lt sp sm mv seed s
        = Except.ok (vs, s1)
      ∧ vs.length = nd * (durations.map (fun (d : ℤ) => (⌊(d : ℚ) * (60 / (24 / dlh))⌋).toNat)).sum := by
  have hsl : 0 < (60 : ℚ) / (24 / dlh) := by positivity
  have hdc : durations.map (fun (d : ℤ) => (truncQ ((d : ℚ) * (60 / (24 / dlh)))).toNat)
      = durations.map (fun (d : ℤ) => (⌊(d : ℚ) * (60 / (24 / dlh))⌋).toNat) := by
    refine List.map_congr_left (fun d hd => ?_)
    have hd0 : (0 : ℚ) ≤ (d : ℚ) := by exact_mod_cast hpos d hd
    rw [truncQ, if_pos (mul_nonneg hd0 (le_of_lt hsl))]
  have hdne : durations ≠ [] := by
    intro h
    rw [h] at hsum
    simp at hsum
  have hane : avg_values ≠ [] := by
    intro h
    rw [h] at hlen
    simp [colsOf] at hlen
    exact hdne hlen
  have hrow : ∀ row ∈ avg_values,
      (durations.map (fun (d : ℤ) => (truncQ ((d : ℚ) * (60 / (24 / dlh)))).toNat)).length
        ≤ row.length := by
    intro row hr
    rw [List.length_map, hlen, hrect row hr]
  have hglen : ∀ s0 : σ,
      (genDays R sw sl sh lt mv avg_values
        (durations.map (fun (d : ℤ) => (truncQ ((d : ℚ) * (60 / (24 / dlh)))).toNat))
        (List.range nd) s0).1.length
      = nd * (durations.map (fun (d : ℤ) => (⌊(d : ℚ) * (60 / (24 / dlh))⌋).toNat)).sum := by
    intro s0
    rw [genDays_length R sw sl sh lt mv avg_values _ hrow hane, List.length_range, hdc]
  cases hres : generate_values R avg_values durations dlh nd sw sl sh lt sp sm mv seed s with
  | error e =>
    exfalso
    simp only [generate_values, hsum, hlen, if_true] at hres
    split at hres <;> simp at hres
  | ok t =>
    obtain ⟨vs, s1⟩ := t
    refine ⟨vs, s1, rfl, ?_⟩
    simp only [generate_values, hsum, hlen, if_true] at hres
    split at hres <;>
      (simp only [Except.ok.injEq, Prod.mk.injEq] at hres
       obtain ⟨⟨h1, _⟩, _⟩ := And.intro hres trivial
       subst h1)
    · simp only [List.length_map, spikeLoop_length]
      exact hglen _
    · exact hglen _

/-- Witness for C4 at a concrete valid configuration. -/
theorem generate_values_length_spec_witness :
    (([24] : List ℤ).sum = 24)
    ∧ (∃ vs s1,
        generate_values demoRNG [[100]] [24] (1/60) 1 2 3 80 200 0 1 1 none 0
          = Except.ok (vs, s1)
        ∧ vs.length
          = 1 * (([24] : List ℤ).map
              (fun (d : ℤ) => (⌊(d : ℚ) * (60 / (24 / (1/60)))⌋).toNat)).sum) :=
  ⟨by with_unfolding_all decide,
   generate_values_length_spec demoRNG [[100]] [24] (1/60) 1 2 3 80 200 0 1 1 none 0
     (by with_unfolding_all decide) (by with_unfolding_all decide)
     (by intro row hr; simp only [List.mem_singleton] at hr; rw [hr]; rfl)
     (by intro d hd; simp only [List.mem_singleton] at hd; rw [hd]; with_unfolding_all decide)
     (by with_unfolding_all decide)⟩

/-! ## Claim C6: floor clamp on every produced sample -/

/-- C6: whenever `generate_values` or `build_phase_values` returns a
series, every element of it is at least `min_value` — the per-step clamp
covers the spike-free path and the final clamp covers the path with spike
injection enabled. -/
theorem every_value_min_clamped (R : RNG σ)
    (avg_values : List (List ℚ)) (durations : List ℤ) (dlh : ℚ) (nd : ℕ)
    (sw sl sh lt sp sm mv : ℚ) (seed : Option ℤ) (s : σ)
    (phases : List Phase) (sp2 sm2 lt2 mv2 : ℚ) (seed2 : Option ℤ) (s2 : σ) :
    (∀ vs s1,
      generate_values R avg_values durations dlh nd sw sl sh lt sp sm mv seed s
        = Except.ok (vs, s1) → ∀ v ∈ vs, mv ≤ v)
    ∧ (∀ vs s1,
      build_phase_values R phases sp2 sm2 lt2 mv2 seed2 s2
        = Except.ok (vs, s1) → ∀ v ∈ vs, mv2 ≤ v) := by
  constructor
  · intro vs s1 h v hv
    simp only [generate_values] at h
    split at h
    · split at h
      · split at h
        · simp only [Except.ok.injEq, Prod.mk.injEq] at h
          obtain ⟨h1, _⟩ := h
          subst h1
          obtain ⟨w, _, rfl⟩ := List.mem_map.mp hv
          exact le_max_left _ _
        · simp only [Except.ok.injEq, Prod.mk.injEq] at h
          obtain ⟨h1, _⟩ := h
          subst h1
          exact genDays_min R sw sl sh lt mv _ _ _ _ _ hv
      · simp at h
    · simp at h
  · intro vs s1 h v hv
    simp only [build_phase_values] at h
    split at h
    · simp at h
    · split at h
      · simp at h
      · split at h
        · simp only [Except.ok.injEq, Prod.mk.injEq] at h
          obtain ⟨h1, _⟩ := h
          subst h1
          obtain ⟨w, _, rfl⟩ := List.mem_map.mp hv
          exact le_max_left _ _
        · simp only [Except.ok.injEq, Prod.mk.injEq] at h
          obtain ⟨h1, _⟩ := h
          subst h1
          obtain ⟨w, _, rfl⟩ := List.mem_map.mp hv
          exact le_max_left _ _

/-- Witness for C6: a spike-free profile run and a flat phase run, with
every produced sample at least the floor 1. -/
theorem every_value_min_clamped_witness :
    (generate_values demoRNG [[100]] [24] (1/60) 1 2 3 80 200 0 1 1 none 0
      = Except.ok ([303], 2))
    ∧ (build_phase_values demoRNG [⟨"flat", 2, 50, none, 0⟩] 0 1 200 1 none 0
      = Except.ok ([50, 50], 2))
    ∧ (∀ v ∈ ([303] : List ℚ), (1 : ℚ) ≤ v)
    ∧ (∀ v ∈ ([50, 50] : List ℚ), (1 : ℚ) ≤ v) := by
  have h1 : generate_values demoRNG [[100]] [24] (1/60) 1 2 3 80 200 0 1 1 none 0
      = Except.ok ([303], 2) := by with_unfolding_all rfl
  have h2 : build_phase_values demoRNG [⟨"flat", 2, 50, none, 0⟩] 0 1 200 1 none 0
      = Except.ok ([50, 50], 2) := by with_unfolding_all rfl
  exact ⟨h1, h2,
    (every_value_min_clamped demoRNG [[100]] [24] (1/60) 1 2 3 80 200 0 1 1 none 0
      [⟨"flat", 2, 50, none, 0⟩] 0 1 200 1 none 0).1 _ _ h1,
    (every_value_min_clamped demoRNG [[100]] [24] (1/60) 1 2 3 80 200 0 1 1 none 0
      [⟨"flat", 2, 50, none, 0⟩] 0 1 200 1 none 0).2 _ _ h2⟩

/-! ## Claim C5: phase-concat series length -/

theorem linspace_length (start stop : ℚ) : ∀ n : ℕ, (linspace start stop n).length = n
  | 0 => rfl
  | 1 => rfl
  | n + 2 =>
    show ((List.range (n + 2)).map
        (fun (i : ℕ) => start + (stop - start) * (i : ℚ) / ((n : ℚ) + 1))).length
        = n + 2 by rw [List.length_map, List.length_range]

theorem phaseVals_length (R : RNG σ) (p : Phase) (s : σ)
    (hp : p.kind = "flat" ∨ p.kind = "ramp") :
    (phaseVals R p s).1.length = p.duration_min := by
  rcases hp with hp | hp
  · simp [phaseVals, hp, normalVec_length]
  · have hnf : ¬ p.kind = "flat" := by rw [hp]; decide
    simp [phaseVals, hnf, linspace_length, normalVec_length]

theorem buildSegments_valid_ok (R : RNG σ) :
    ∀ (phases : List Phase), (∀ p ∈ phases, p.kind = "flat" ∨ p.kind = "ramp") →
      ∀ (lv : Option (List ℚ)) (s : σ),
      ∃ segs s1, buildSegments R phases lv s = Except.ok (segs, s1)
        ∧ segs.map List.length = phases.map Phase.duration_min := by
  intro phases
  induction phases with
  | nil => intro _ lv s; exact ⟨[], s, rfl, rfl⟩
  | cons p rest ih =>
    intro hval lv s
    have hp : p.kind = "flat" ∨ p.kind = "ramp" := hval p (List.mem_cons_self p rest)
    have hrest : ∀ q ∈ rest, q.kind = "flat" ∨ q.kind = "ramp" :=
      fun q hq => hval q (List.mem_cons_of_mem p hq)
    obtain ⟨segs, s1, hok, hlen⟩ := ih hrest (some (phaseVals R p s).1) (phaseVals R p s).2
    refine ⟨(phaseVals R p s).1 :: segs, s1, ?_, ?_⟩
    · simp only [buildSegments, if_pos hp, hok]
    · simp [hlen, phaseVals_length R p s hp]

/-- C5 (counterexample): on the empty phase list `build_phase_values` does
not return an empty series of length `Σ duration_min = 0`; it fails with
NumPy's `np.concatenate([])` error. -/
theorem build_phase_values_empty_counterexample :
    build_phase_values demoRNG [] 0 1 200 1 none 0 = Except.error errEmptyConcat
    ∧ (([] : List Phase).map Phase.duration_min).sum = 0 :=
  ⟨by with_unfolding_all rfl, rfl⟩

/-- C5 (amended): for every nonempty list of phases (each of the two kinds
the `Phase` type admits), `build_phase_values` returns a series whose
length is the sum of the phases' `duration_min`. -/
theorem build_phase_values_length (R : RNG σ) (phases : List Phase)
    (sp sm lt mv : ℚ) (seed : Option ℤ) (s : σ)
    (hne : phases ≠ [])
    (hval : ∀ p ∈ phases, p.kind = "flat" ∨ p.kind = "ramp") :
    ∃ vs s1, build_phase_values R phases sp sm lt mv seed s = Except.ok (vs, s1)
      ∧ vs.length = (phases.map Phase.duration_min).sum := by
  obtain ⟨segs, s1, hok, hlen⟩ :=
    buildSegments_valid_ok R phases hval none (seedState R seed s)
  have hsegne : ¬ segs.isEmpty = true := by
    have : segs.length = phases.length := by
      have := congrArg List.length hlen
      simpa using this
    simp only [List.isEmpty_iff]
    intro hcon
    rw [hcon] at this
    exact hne (List.length_eq_zero.mp this.symm)
  have hflat : segs.flatten.length = (phases.map Phase.duration_min).sum := by
    rw [List.length_flatten, hlen]
  cases hres : build_phase_values R phases sp sm lt mv seed s with
  | error e =>
    exfalso
    simp only [build_phase_values, hok] at hres
    rw [if_neg hsegne] at hres
    split at hres <;> simp at hres
  | ok t =>
    obtain ⟨vs, sfin⟩ := t
    refine ⟨vs, sfin, rfl, ?_⟩
    simp only [build_phase_values, hok] at hres
    rw [if_neg hsegne] at hres
    split at hres <;>
      (simp only [Except.ok.injEq, Prod.mk.injEq] at hres
       obtain ⟨⟨h1, _⟩, _⟩ := And.intro hres trivial
       subst h1)
    · have hcomp : (List.length ∘ List.map fun v => max mv v) = fun l : List ℚ => l.length := by
        funext l
        simp
      simp [spikeLoop_length, List.length_flatten, hcomp, hlen]
    · have hcomp : (List.length ∘ List.map fun v => max mv v) = fun l : List ℚ => l.length := by
        funext l
        simp
      simp [List.length_flatten, hcomp, hlen]

/-- Witness for C5 (amended) at a concrete one-phase list. -/
theorem build_phase_values_length_witness :
    (([⟨"flat", 2, 50, none, 0⟩] : List Phase) ≠ [])
    ∧ (∃ vs s1,
        build_phase_values demoRNG [⟨"flat", 2, 50, none, 0⟩] 0 1 200 1 none 0
          = Except.ok (vs, s1)
        ∧ vs.length = (([⟨"flat", 2, 50, none, 0⟩] : List Phase).map Phase.duration_min).sum) :=
  ⟨by decide,
   build_phase_values_length demoRNG [⟨"flat", 2, 50, none, 0⟩] 0 1 200 1 none 0
     (by decide)
     (by intro p hp; simp only [List.mem_singleton] at hp; rw [hp]; left; rfl)⟩

/-! ## Claim C10: behavior on an unrecognized phase kind -/

theorem buildSegments_some_ok (R : RNG σ) :
    ∀ (phases : List Phase) (v : List ℚ) (s : σ),
      ∃ segs s1, buildSegments R phases (some v) s = Except.ok (segs, s1) := by
  intro phases
  induction phases with
  | nil => intro v s; exact ⟨[], s, rfl⟩
  | cons p rest ih =>
    intro v s
    by_cases hp : p.kind = "flat" ∨ p.kind = "ramp"
    · obtain ⟨segs, s1, hok⟩ := ih (phaseVals R p s).1 (phaseVals R p s).2
      refine ⟨(phaseVals R p s).1 :: segs, s1, ?_⟩
      simp only [buildSegments, if_pos hp, hok]
    · obtain ⟨segs, s1, hok⟩ := ih v s
      refine ⟨v :: segs, s1, ?_⟩
      simp only [buildSegments, if_neg hp, hok]

/-- C10: a phase whose kind is neither `"flat"` nor `"ramp"` does not fail
when some phase precedes it — the stale loop variable `vals` makes the
segment of the immediately preceding (valid) phase be appended a second
time and the whole call still returns a series; but when the invalid phase
comes first, the loop variable was never assigned and the call fails with
an unbound-local error instead of a configuration error. -/
theorem invalid_phase_kind_behavior :
    (∀ (R : RNG σ) (p q : Phase) (rest : List Phase) (sp sm lt mv : ℚ)
       (seed : Option ℤ) (s : σ),
       (p.kind = "flat" ∨ p.kind = "ramp") → q.kind ≠ "flat" → q.kind ≠ "ramp" →
       (∃ vs sf, build_phase_values R (p :: q :: rest) sp sm lt mv seed s
          = Except.ok (vs, sf))
       ∧ (∃ segs s1,
            buildSegments R rest (some (phaseVals R p (seedState R seed s)).1)
                (phaseVals R p (seedState R seed s)).2 = Except.ok (segs, s1)
            ∧ buildSegments R (p :: q :: rest) none (seedState R seed s)
              = Except.ok ((phaseVals R p (seedState R seed s)).1
                  :: (phaseVals R p (seedState R seed s)).1 :: segs, s1)))
    ∧ (∀ (R : RNG σ) (q : Phase) (rest : List Phase) (sp sm lt mv : ℚ)
       (seed : Option ℤ) (s : σ),
       q.kind ≠ "flat" → q.kind ≠ "ramp" →
       build_phase_values R (q :: rest) sp sm lt mv seed s
         = Except.error errUnboundVals) := by
  constructor
  · intro R p q rest sp sm lt mv seed s hp hqf hqr
    have hq : ¬ (q.kind = "flat" ∨ q.kind = "ramp") := by
      rintro (h | h)
      · exact hqf h
      · exact hqr h
    obtain ⟨segs, s1, hok⟩ :=
      buildSegments_some_ok R rest (phaseVals R p (seedState R seed s)).1
        (phaseVals R p (seedState R seed s)).2
    have hfull : buildSegments R (p :: q :: rest) none (seedState R seed s)
        = Except.ok ((phaseVals R p (seedState R seed s)).1
            :: (phaseVals R p (seedState R seed s)).1 :: segs, s1) := by
      simp only [buildSegments, if_pos hp, if_neg hq, hok]
    refine ⟨?_, segs, s1, hok, hfull⟩
    have hnemp : ¬ (((phaseVals R p (seedState R seed s)).1
        :: (phaseVals R p (seedState R seed s)).1 :: segs).isEmpty = true) := by simp
    cases hres : build_phase_values R (p :: q :: rest) sp sm lt mv seed s with
    | error e =>
      exfalso
      simp only [build_phase_values, hfull] at hres
      rw [if_neg hnemp] at hres
      split at hres <;> simp at hres
    | ok t => exact ⟨t.1, t.2, rfl⟩
  · intro R q rest sp sm lt mv seed s hqf hqr
    have hq : ¬ (q.kind = "flat" ∨ q.kind = "ramp") := by
      rintro (h | h)
      · exact hqf h
      · exact hqr h
    have hseg : buildSegments R (q :: rest) none (seedState R seed s)
        = Except.error errUnboundVals := by
      simp only [buildSegments, if_neg hq]
    simp only [build_phase_values, hseg]

/-- Witness for C10 at a concrete phase list (a valid flat phase followed
by a `"bogus"` phase, and a leading `"bogus"` phase). -/
theorem invalid_phase_kind_behavior_witness :
    ((Phase.mk "flat" 2 50 none 0).kind = "flat" ∨ (Phase.mk "flat" 2 50 none 0).kind = "ramp")
    ∧ ((Phase.mk "bogus" 3 9 none 0).kind ≠ "flat")
    ∧ ((Phase.mk "bogus" 3 9 none 0).kind ≠ "ramp")
    ∧ ((∃ vs sf, build_phase_values demoRNG
          [⟨"flat", 2, 50, none, 0⟩, ⟨"bogus", 3, 9, none, 0⟩] 0 1 200 1 none 0
          = Except.ok (vs, sf))
       ∧ (∃ segs s1,
            buildSegments demoRNG []
                (some (phaseVals demoRNG ⟨"flat", 2, 50, none, 0⟩ (seedState demoRNG none 0)).1)
                (phaseVals demoRNG ⟨"flat", 2, 50, none, 0⟩ (seedState demoRNG none 0)).2
              = Except.ok (segs, s1)
            ∧ buildSegments demoRNG
                [⟨"flat", 2, 50, none, 0⟩, ⟨"bogus", 3, 9, none, 0⟩] none (seedState demoRNG none 0)
              = Except.ok ((phaseVals demoRNG ⟨"flat", 2, 50, none, 0⟩ (seedState demoRNG none 0)).1
                  :: (phaseVals demoRNG ⟨"flat", 2, 50, none, 0⟩ (seedState demoRNG none 0)).1
                  :: segs, s1)))
    ∧ (build_phase_values demoRNG [⟨"bogus", 3, 9, none, 0⟩] 0 1 200 1 none 0
        = Except.error errUnboundVals) :=
  ⟨Or.inl rfl, by decide, by decide,
   invalid_phase_kind_behavior.1 demoRNG ⟨"flat", 2, 50, none, 0⟩ ⟨"bogus", 3, 9, none, 0⟩
     [] 0 1 200 1 none 0 (Or.inl rfl) (by decide) (by decide),
   invalid_phase_kind_behavior.2 demoRNG ⟨"bogus", 3, 9, none, 0⟩ [] 0 1 200 1 none 0
     (by decide) (by decide)⟩

/-! ## Claim C8: spike selection and monotonicity in the multiplier -/

/-- The effect of the spike pass as a function of the base series, the
Bernoulli mask, and the multiplier: eligible selected samples are
multiplied, then the final clamp runs; with `spike_prob ≤ 0` the pass is
skipped entirely. -/
def applySpikes (min_value spike_prob spike_mult : ℚ) (base : List ℚ) (mask : List Bool) :
    List ℚ :=
  if 0 < spike_prob then
    (List.zipWith (fun v b => if b then v * spike_mult else v) base mask).map
      (fun v => max min_value v)
  else base

/-- Pointwise comparison of the spike output between multiplier 1 and a
multiplier `m ≥ 1`, given that every masked sample exceeds the (nonnegative)
threshold. -/
theorem applySpikes_mono (mv sp m lt : ℚ) (base : List ℚ) (mask : List Bool)
    (hthr : 0 ≤ lt) (hm : 1 ≤ m) (hblen : base.length = mask.length)
    (hmask : List.Forall₂ (fun v b => b = true → lt < v) base mask) :
    ∀ (i : ℕ) (h1 : i < (applySpikes mv sp 1 base mask).length)
      (h2 : i < (applySpikes mv sp m base mask).length),
      (applySpikes mv sp 1 base mask).get ⟨i, h1⟩
        ≤ (applySpikes mv sp m base mask).get ⟨i, h2⟩ := by
  intro i h1 h2
  by_cases hsp : 0 < sp
  · have hib : i < base.length := by
      have := h1
      simp only [applySpikes, if_pos hsp, List.length_map, List.length_zipWith,
        ← hblen, min_self] at this
      exact this
    have him : i < mask.length := hblen ▸ hib
    have hget := (List.forall₂_iff_get.mp hmask).2 i hib him
    simp only [applySpikes, if_pos hsp, List.get_eq_getElem, List.getElem_map,
      List.getElem_zipWith]
    rcases hb : mask[i] with _ | _
    · simp
    · simp only [if_true]
      have hgt : lt < base[i] := by
        rw [List.get_eq_getElem, List.get_eq_getElem, hb] at hget
        exact hget rfl
      have hv0 : 0 ≤ base[i] := le_of_lt (lt_of_le_of_lt hthr hgt)
      have : base[i] * 1 ≤ base[i] * m := mul_le_mul_of_nonneg_left hm hv0
      exact max_le_max le_rfl this
  · have hl1 : applySpikes mv sp 1 base mask = base := by
      simp [applySpikes, hsp]
    have hlm : applySpikes mv sp m base mask = base := by
      simp [applySpikes, hsp]
    rw [List.get_eq_getElem, List.get_eq_getElem, List.getElem_of_eq hl1,
      List.getElem_of_eq hlm]

theorem replicate_false_mask (lt : ℚ) (base : List ℚ) :
    List.Forall₂ (fun (v : ℚ) (b : Bool) => b = true → lt < v) base
      (List.replicate base.length false) := by
  rw [List.forall₂_iff_get]
  refine ⟨(List.length_replicate _ _).symm, ?_⟩
  intro i h1 h2
  rw [List.get_eq_getElem, List.getElem_replicate]
  intro h
  exact absurd h (by simp)

/-- C8: for a fixed seed (same starting stream state), the base series and
the set of samples selected for spiking do not depend on `spike_mult` — a
single `base`/`mask` pair describes the run for every multiplier, in both
generators — and the run with multiplier `m ≥ 1` dominates the
`spike_mult = 1` run pointwise. -/
theorem spike_mult_monotone (R : RNG σ) (lt sp m mv : ℚ) (seed : Option ℤ) (s : σ)
    (hthr : 0 ≤ lt) (hm : 1 ≤ m) :
    (∀ (avg_values : List (List ℚ)) (durations : List ℤ) (dlh : ℚ) (nd : ℕ) (sw sl sh : ℚ),
      durations.sum = 24 → durations.length = colsOf avg_values →
      ∃ base mask sfin,
        base.length = mask.length
        ∧ (∀ m2 : ℚ,
            generate_values R avg_values durations dlh nd sw sl sh lt sp m2 mv seed s
              = Except.ok (applySpikes mv sp m2 base mask, sfin))
        ∧ (∀ (i : ℕ) (h1 : i < (applySpikes mv sp 1 base mask).length)
             (h2 : i < (applySpikes mv sp m base mask).length),
            (applySpikes mv sp 1 base mask).get ⟨i, h1⟩
              ≤ (applySpikes mv sp m base mask).get ⟨i, h2⟩))
    ∧ (∀ (phases : List Phase), phases ≠ [] →
      (∀ p ∈ phases, p.kind = "flat" ∨ p.kind = "ramp") →
      ∃ base mask sfin,
        base.length = mask.length
        ∧ (∀ m2 : ℚ,
            build_phase_values R phases sp m2 lt mv seed s
              = Except.ok (applySpikes mv sp m2 base mask, sfin))
        ∧ (∀ (i : ℕ) (h1 : i < (applySpikes mv sp 1 base mask).length)
             (h2 : i < (applySpikes mv sp m base mask).length),
            (applySpikes mv sp 1 base mask).get ⟨i, h1⟩
              ≤ (applySpikes mv sp m base mask).get ⟨i, h2⟩)) := by
  constructor
  · intro avg_values durations dlh nd sw sl sh hsum hlen
    set base := (genDays R sw sl sh lt mv avg_values
        (durations.map (fun (d : ℤ) => (truncQ ((d : ℚ) * (60 / (24 / dlh)))).toNat))
        (List.range nd) (seedState R seed s)).1 with hbase
    set s1 := (genDays R sw sl sh lt mv avg_values
        (durations.map (fun (d : ℤ) => (truncQ ((d : ℚ) * (60 / (24 / dlh)))).toNat))
        (List.range nd) (seedState R seed s)).2 with hs1
    by_cases hsp : 0 < sp
    · refine ⟨base, (spikeMask R lt sp base s1).1, (spikeMask R lt sp base s1).2,
        (spikeMask_length R lt sp base s1).symm, ?_, ?_⟩
      · intro m2
        simp only [generate_values, hsum, hlen, if_true, hsp, spikeLoop_eq_mask,
          applySpikes, if_pos hsp]
      · exact applySpikes_mono mv sp m lt base _ hthr hm
          (spikeMask_length R lt sp base s1).symm (spikeMask_forall_gt R lt sp base s1)
    · refine ⟨base, List.replicate base.length false, s1,
        (List.length_replicate _ _).symm, ?_, ?_⟩
      · intro m2
        simp only [generate_values, hsum, hlen, if_true, hsp, if_false,
          applySpikes, if_neg hsp]
      · exact applySpikes_mono mv sp m lt base _ hthr hm
          (List.length_replicate _ _).symm (replicate_false_mask lt base)
  · intro phases hne hval
    obtain ⟨segs, s1, hok, hslen⟩ :=
      buildSegments_valid_ok R phases hval none (seedState R seed s)
    have hsegne : ¬ segs.isEmpty = true := by
      have hll : segs.length = phases.length := by
        have := congrArg List.length hslen
        simpa using this
      simp only [List.isEmpty_iff]
      intro hcon
      rw [hcon] at hll
      exact hne (List.length_eq_zero.mp hll.symm)
    set base := segs.flatten.map (fun v => max mv v) with hbase
    by_cases hsp : 0 < sp
    · refine ⟨base, (spikeMask R lt sp base s1).1, (spikeMask R lt sp base s1).2,
        (spikeMask_length R lt sp base s1).symm, ?_, ?_⟩
      · intro m2
        simp only [build_phase_values, hok]
        rw [if_neg hsegne]
        simp only [hsp, if_true, spikeLoop_eq_mask, applySpikes, if_pos hsp]
      · exact applySpikes_mono mv sp m lt base _ hthr hm
          (spikeMask_length R lt sp base s1).symm (spikeMask_forall_gt R lt sp base s1)
    · refine ⟨base, List.replicate base.length false, s1,
        (List.length_replicate _ _).symm, ?_, ?_⟩
      · intro m2
        simp only [build_phase_values, hok]
        rw [if_neg hsegne]
        simp only [hsp, if_false, applySpikes, if_neg hsp]
      · exact applySpikes_mono mv sp m lt base _ hthr hm
          (List.length_replicate _ _).symm (replicate_false_mask lt base)

/-- Witness for C8 at concrete seeded runs containing spiked samples. -/
theorem spike_mult_monotone_witness :
    ((0 : ℚ) ≤ 200) ∧ ((1 : ℚ) ≤ 2) ∧ (([24] : List ℤ).sum = 24)
    ∧ (∃ base mask sfin,
        base.length = mask.length
        ∧ (∀ m2 : ℚ,
            generate_values demoRNG [[100], [300]] [24] (1/30) 3 0 3 80 200 (1/2) m2 1
              (some 5) 99
              = Except.ok (applySpikes 1 (1/2) m2 base mask, sfin))
        ∧ (∀ (i : ℕ) (h1 : i < (applySpikes 1 (1/2) 1 base mask).length)
             (h2 : i < (applySpikes 1 (1/2) 2 base mask).length),
            (applySpikes 1 (1/2) 1 base mask).get ⟨i, h1⟩
              ≤ (applySpikes 1 (1/2) 2 base mask).get ⟨i, h2⟩))
    ∧ (∃ base mask sfin,
        base.length = mask.length
        ∧ (∀ m2 : ℚ,
            build_phase_values demoRNG [⟨"flat", 2, 300, none, 0⟩] (1/2) m2 200 1
              (some 5) 99
              = Except.ok (applySpikes 1 (1/2) m2 base mask, sfin))
        ∧ (∀ (i : ℕ) (h1 : i < (applySpikes 1 (1/2) 1 base mask).length)
             (h2 : i < (applySpikes 1 (1/2) 2 base mask).length),
            (applySpikes 1 (1/2) 1 base mask).get ⟨i, h1⟩
              ≤ (applySpikes 1 (1/2) 2 base mask).get ⟨i, h2⟩)) :=
  ⟨by with_unfolding_all decide, by with_unfolding_all decide, by with_unfolding_all decide,
   (spike_mult_monotone demoRNG 200 (1/2) 2 1 (some 5) 99
      (by with_unfolding_all decide) (by with_unfolding_all decide)).1
     [[100], [300]] [24] (1/30) 3 0 3 80
     (by with_unfolding_all decide) (by with_unfolding_all decide),
   (spike_mult_monotone demoRNG 200 (1/2) 2 1 (some 5) 99
      (by with_unfolding_all decide) (by with_unfolding_all decide)).2
     [⟨"flat", 2, 300, none, 0⟩] (by decide)
     (by intro p hp; simp only [List.mem_singleton] at hp; rw [hp]; left; rfl)⟩

/-! ## Claim C2: ConfigMap round-trip of the embedded scenario JSON -/

/-- A string without a line break (one "line" in the Python sense). -/
def NoNl (s : String) : Prop := '\n' ∉ s.data

instance (s : String) : Decidable (NoNl s) :=
  inferInstanceAs (Decidable ('\n' ∉ s.data))

theorem NoNl.append {a b : String} (ha : NoNl a) (hb : NoNl b) : NoNl (a ++ b) := by
  unfold NoNl at *
  rw [String.data_append]
  intro h
  rcases List.mem_append.mp h with h | h
  · exact ha h
  · exact hb h

theorem splitNl_ne_nil (cs : List Char) : splitNl cs ≠ [] := by
  induction cs with
  | nil => simp [splitNl]
  | cons c cs ih =>
    by_cases h : c = '\n'
    · simp [splitNl, h]
    · simp only [splitNl, if_neg h]
      rcases hs : splitNl cs with _ | ⟨l, ls⟩
      · simp
      · simp

theorem splitNl_no_nl (cs : List Char) (h : '\n' ∉ cs) : splitNl cs = [cs] := by
  induction cs with
  | nil => rfl
  | cons c cs ih =>
    have hc : ¬ c = '\n' := by
      intro hh
      exact h (by rw [hh]; exact List.mem_cons_self _ _)
    have hcs : '\n' ∉ cs := fun hh => h (List.mem_cons_of_mem _ hh)
    simp [splitNl, if_neg hc, ih hcs]

theorem splitNl_append_nl (xs ys : List Char) (h : '\n' ∉ xs) :
    splitNl (xs ++ '\n' :: ys) = xs :: splitNl ys := by
  induction xs with
  | nil => simp [splitNl]
  | cons c xs ih =>
    have hc : ¬ c = '\n' := by
      intro hh
      exact h (by rw [hh]; exact List.mem_cons_self _ _)
    have hxs : '\n' ∉ xs := fun hh => h (List.mem_cons_of_mem _ hh)
    simp only [List.cons_append, splitNl, if_neg hc]
    rw [show xs.append ('\n' :: ys) = xs ++ '\n' :: ys from rfl, ih hxs]

theorem pyLines_append_line (x rest : String) (h : NoNl x) :
    pyLines (x ++ "\n" ++ rest) = x :: pyLines rest := by
  unfold pyLines
  have hdata : (x ++ "\n" ++ rest).data = x.data ++ '\n' :: rest.data := by
    rw [String.data_append, String.data_append]
    simp
  rw [hdata, splitNl_append_nl _ _ h]
  rfl

theorem pyLines_joinNl (ls : List String) (hnl : ∀ l ∈ ls, NoNl l) (hne : ls ≠ []) :
    pyLines (pyJoinNl ls) = ls := by
  induction ls with
  | nil => exact absurd rfl hne
  | cons l rest ih =>
    rcases rest with _ | ⟨l2, rest2⟩
    · show pyLines l = [l]
      unfold pyLines
      rw [splitNl_no_nl _ (hnl l (List.mem_cons_self _ _))]
      rfl
    · have hstep : pyJoinNl (l :: l2 :: rest2) = l ++ "\n" ++ pyJoinNl (l2 :: rest2) := rfl
      rw [hstep, pyLines_append_line _ _ (hnl l (List.mem_cons_self _ _)),
        ih (fun x hx => hnl x (List.mem_cons_of_mem _ hx)) (by simp)]

theorem pyLines_joinNl_append_nl (ls : List String) (hnl : ∀ l ∈ ls, NoNl l)
    (hne : ls ≠ []) : pyLines (pyJoinNl ls ++ "\n") = ls ++ [""] := by
  induction ls with
  | nil => exact absurd rfl hne
  | cons l rest ih =>
    rcases rest with _ | ⟨l2, rest2⟩
    · show pyLines (l ++ "\n") = [l, ""]
      have : l ++ "\n" = l ++ "\n" ++ "" := by rw [String.append_empty]
      rw [this, pyLines_append_line _ _ (hnl l (List.mem_cons_self _ _))]
      rfl
    · have hstep : pyJoinNl (l :: l2 :: rest2) ++ "\n"
          = l ++ "\n" ++ (pyJoinNl (l2 :: rest2) ++ "\n") := by
        show pyJoinNl (l :: l2 :: rest2) ++ "\n" = _
        rw [show pyJoinNl (l :: l2 :: rest2) = l ++ "\n" ++ pyJoinNl (l2 :: rest2) from rfl,
          String.append_assoc]
      rw [hstep, pyLines_append_line _ _ (hnl l (List.mem_cons_self _ _)),
        ih (fun x hx => hnl x (List.mem_cons_of_mem _ hx)) (by simp)]
      rfl

theorem digitChar_ne_nl (m : ℕ) : Nat.digitChar m ≠ '\n' := by
  by_cases h : m < 16
  · interval_cases m <;> decide
  · have hstar : Nat.digitChar m = '*' := by
      unfold Nat.digitChar
      repeat rw [if_neg (by omega)]
    rw [hstar]
    decide

theorem natDigits_ne_nl (n : ℕ) : ∀ c ∈ natDigits n, c ≠ '\n' := by
  induction n using Nat.strong_induction_on with
  | _ n ih =>
    intro c hc
    unfold natDigits at hc
    by_cases h : n < 10
    · rw [if_pos h] at hc
      simp only [List.mem_singleton] at hc
      rw [hc]
      exact digitChar_ne_nl n
    · rw [if_neg h] at hc
      rcases List.mem_append.mp hc with hc | hc
      · exact ih (n / 10) (Nat.div_lt_self (by omega) (by omega)) c hc
      · simp only [List.mem_singleton] at hc
        rw [hc]
        exact digitChar_ne_nl (n % 10)

theorem renderInt_no_nl (z : ℤ) : NoNl (renderInt z) := by
  unfold renderInt NoNl
  by_cases h : z < 0
  · rw [if_pos h]
    intro hmem
    rcases List.mem_cons.mp hmem with hmem | hmem
    · exact absurd hmem (by decide)
    · exact natDigits_ne_nl z.natAbs '\n' hmem rfl
  · rw [if_neg h]
    intro hmem
    exact natDigits_ne_nl z.natAbs '\n' hmem rfl

theorem entryLines_no_nl (comma : Bool) (e : ScenarioEntry) :
    ∀ l ∈ entryLines comma e, NoNl l := by
  intro l hl
  simp only [entryLines, List.mem_cons, List.mem_singleton] at hl
  rcases hl with rfl | rfl | rfl | rfl | hl
  · decide
  · exact NoNl.append (NoNl.append (by decide) (renderInt_no_nl _)) (by decide)
  · exact NoNl.append (NoNl.append (by decide) (renderInt_no_nl _)) (by decide)
  · exact NoNl.append (by decide) (renderInt_no_nl _)
  · cases comma <;> simp at hl <;> subst hl <;> decide

theorem entriesLines_no_nl (entries : List ScenarioEntry) :
    ∀ l ∈ entriesLines entries, NoNl l := by
  induction entries with
  | nil => intro l hl; simp [entriesLines] at hl
  | cons e rest ih =>
    rcases rest with _ | ⟨e2, rest2⟩
    · intro l hl
      exact entryLines_no_nl false e l hl
    · intro l hl
      rcases List.mem_append.mp hl with hl | hl
      · exact entryLines_no_nl true e l hl
      · exact ih l hl

theorem dumpLines_no_nl (entries : List ScenarioEntry) :
    ∀ l ∈ dumpLines entries, NoNl l := by
  intro l hl
  rcases entries with _ | ⟨e, rest⟩
  · simp only [dumpLines, List.mem_singleton] at hl
    rw [hl]
    decide
  · simp only [dumpLines, List.mem_cons] at hl
    rcases hl with rfl | hl
    · decide
    · rcases List.mem_append.mp hl with hl | hl
      · exact entriesLines_no_nl _ l hl
      · simp only [List.mem_singleton] at hl
        rw [hl]
        decide

theorem dumpLines_ne_nil (entries : List ScenarioEntry) : dumpLines entries ≠ [] := by
  rcases entries with _ | ⟨e, rest⟩ <;> simp [dumpLines]

theorem takeWhile_append_all {α : Type} (p : α → Bool) (l₁ l₂ : List α)
    (h : ∀ x ∈ l₁, p x = true) :
    (l₁ ++ l₂).takeWhile p = l₁ ++ l₂.takeWhile p := by
  induction l₁ with
  | nil => simp
  | cons a t ih =>
    simp only [List.cons_append, List.takeWhile_cons, h a (List.mem_cons_self a t),
      if_true, ih (fun x hx => h x (List.mem_cons_of_mem _ hx))]

theorem dropTrailingBlank_append (ls : List String) (h : ∀ x ∈ ls, x ≠ "") :
    dropTrailingBlank (ls ++ [""]) = ls := by
  unfold dropTrailingBlank
  rw [List.reverse_append]
  have hrev : (([""] : List String).reverse ++ ls.reverse) = "" :: ls.reverse := by simp
  rw [hrev, List.dropWhile_cons_of_pos (by decide)]
  have hself : ls.reverse.dropWhile (fun l => l == "") = ls.reverse := by
    rcases hr : ls.reverse with _ | ⟨a, t⟩
    · simp
    · have ha : a ∈ ls := by
        rw [← List.mem_reverse, hr]
        exact List.mem_cons_self a t
      rw [List.dropWhile_cons_of_neg]
      simp only [beq_iff_eq]
      exact h a ha
  rw [hself, List.reverse_reverse]

theorem isBlockLine_indent (l : String) : isBlockLine ("    " ++ l) = true := by
  unfold isBlockLine
  rw [String.data_append,
    show (4 : ℕ) = ("    " : String).data.length from rfl, List.take_left]
  rw [show (("    " : String).data == [' ', ' ', ' ', ' ']) = true from rfl]
  exact Bool.or_true _

theorem indentLine_ne_blank (l : String) : ("    " ++ l) ≠ "" := by
  intro h
  have h2 := congrArg String.data h
  rw [String.data_append] at h2
  simp at h2

theorem stripIndent4_indent (l : String) : stripIndent4 ("    " ++ l) = l := by
  refine String.ext ?_
  show ("    " ++ l).data.drop 4 = l.data
  rw [String.data_append, show (4 : ℕ) = ("    " : String).data.length from rfl,
    List.drop_left]

theorem ne_scenario_key_of_getElem (x : String) (h : x.data[2]? ≠ some 's') :
    x ≠ "  scenario.json: |" := by
  intro he
  apply h
  rw [he]
  rfl

theorem name_line_ne_key (n : String) : ("  name: " ++ n) ≠ "  scenario.json: |" := by
  apply ne_scenario_key_of_getElem
  rw [String.data_append,
    List.getElem?_append_left (by decide : (2 : ℕ) < ("  name: " : String).data.length)]
  decide

theorem nspace_line_ne_key (n : String) :
    ("  namespace: " ++ n) ≠ "  scenario.json: |" := by
  apply ne_scenario_key_of_getElem
  rw [String.data_append,
    List.getElem?_append_left (by decide : (2 : ℕ) < ("  namespace: " : String).data.length)]
  decide

/-- C2 (counterexample): for the empty entry list (and the default
ConfigMap names), extracting `data."scenario.json"` from the produced YAML
yields the JSON with one trailing newline — the literal block scalar keeps
its final line break — so the extracted string is not byte-identical to
`json.dumps(scenario_json, indent=2)`. -/
theorem configmap_roundtrip_counterexample :
    yamlExtractScenario (to_configmap_yaml [] "test-scenario" "microservices-demo")
      = some ("[]" ++ "\n")
    ∧ dumps [] = "[]"
    ∧ ("[]" ++ "\n" : String) ≠ "[]" :=
  ⟨by with_unfolding_all rfl, by with_unfolding_all rfl, by with_unfolding_all decide⟩

/-- C2 (amended): for every ScenarioEntry list and every newline-free
ConfigMap name and namespace, parsing the produced YAML and extracting
`data."scenario.json"` yields exactly the pretty-printed JSON followed by
one trailing newline (the clipped final line break of the literal block
scalar); equivalently, the JSON content is byte-identical after removing
that single trailing newline. -/
theorem to_configmap_yaml_roundtrip (entries : List ScenarioEntry)
    (name nspace : String) (hn : NoNl name) (hns : NoNl nspace) :
    yamlExtractScenario (to_configmap_yaml entries name nspace)
      = some (dumps entries ++ "\n") := by
  have hjl : pyLines (dumps entries) = dumpLines entries :=
    pyLines_joinNl _ (dumpLines_no_nl entries) (dumpLines_ne_nil entries)
  have hindnl : ∀ l ∈ (dumpLines entries).map (fun l => "    " ++ l), NoNl l := by
    intro l hl
    obtain ⟨x, hx, rfl⟩ := List.mem_map.mp hl
    exact NoNl.append (by decide) (dumpLines_no_nl entries x hx)
  have hindne : (dumpLines entries).map (fun l => "    " ++ l) ≠ [] := by
    intro h
    exact dumpLines_ne_nil entries (List.map_eq_nil_iff.mp h)
  have hindented :
      pyLines (pyJoinNl ((dumpLines entries).map (fun l => "    " ++ l)) ++ "\n")
        = (dumpLines entries).map (fun l => "    " ++ l) ++ [""] :=
    pyLines_joinNl_append_nl _ hindnl hindne
  have hlines : pyLines (to_configmap_yaml entries name nspace)
      = "apiVersion: v1" :: "kind: ConfigMap" :: "metadata:"
        :: ("  name: " ++ name) :: ("  namespace: " ++ nspace) :: "data:"
        :: "  scenario.json: |"
        :: ((dumpLines entries).map (fun l => "    " ++ l) ++ [""]) := by
    simp only [to_configmap_yaml]
    rw [hjl, pyLines_append_line _ _ (by decide), pyLines_append_line _ _ (by decide),
      pyLines_append_line _ _ (by decide),
      pyLines_append_line _ _ (NoNl.append (by decide) hn),
      pyLines_append_line _ _ (NoNl.append (by decide) hns),
      pyLines_append_line _ _ (by decide), pyLines_append_line _ _ (by decide),
      hindented]
  have hfind : findScenarioBlock (pyLines (to_configmap_yaml entries name nspace))
      = some ((dumpLines entries).map (fun l => "    " ++ l) ++ [""]) := by
    rw [hlines]
    simp only [findScenarioBlock]
    simp [name_line_ne_key name, nspace_line_ne_key nspace]
  have hblock : ((dumpLines entries).map (fun l => "    " ++ l) ++ [""]).takeWhile
        isBlockLine
      = (dumpLines entries).map (fun l => "    " ++ l) ++ [""] := by
    rw [takeWhile_append_all]
    · rfl
    · intro x hx
      obtain ⟨y, _, rfl⟩ := List.mem_map.mp hx
      exact isBlockLine_indent y
  have hdrop : dropTrailingBlank ((dumpLines entries).map (fun l => "    " ++ l) ++ [""])
      = (dumpLines entries).map (fun l => "    " ++ l) := by
    apply dropTrailingBlank_append
    intro x hx
    obtain ⟨y, _, rfl⟩ := List.mem_map.mp hx
    exact indentLine_ne_blank y
  have hcontent : ((dumpLines entries).map (fun l => "    " ++ l)).map stripIndent4
      = dumpLines entries := by
    rw [List.map_map]
    have : (stripIndent4 ∘ fun l => "    " ++ l) = id := by
      funext l
      exact stripIndent4_indent l
    rw [this, List.map_id]
  obtain ⟨a, t, hat⟩ : ∃ a t, dumpLines entries = a :: t := by
    rcases hd : dumpLines entries with _ | ⟨a, t⟩
    · exact absurd hd (dumpLines_ne_nil entries)
    · exact ⟨a, t, rfl⟩
  unfold yamlExtractScenario
  rw [hfind]
  simp only [hblock, hdrop, hcontent]
  rw [show dumps entries = pyJoinNl (dumpLines entries) from rfl, hat]

/-- Witness for C2 (amended) at a one-entry list and the default names. -/
theorem to_configmap_yaml_roundtrip_witness :
    NoNl "test-scenario" ∧ NoNl "microservices-demo"
    ∧ yamlExtractScenario
        (to_configmap_yaml [⟨5, 50, 1⟩] "test-scenario" "microservices-demo")
      = some (dumps [⟨5, 50, 1⟩] ++ "\n") :=
  ⟨by decide, by decide,
   to_configmap_yaml_roundtrip [⟨5, 50, 1⟩] "test-scenario" "microservices-demo"
     (by decide) (by decide)⟩

end Scenariogen
